import Mathlib

/-!
Verification of the core of the splitterPDF repository: the three pure
functions of its `pdfUtils` module — `formatPageRanges`,
`analyzeImagePixelData` and `calculateSmartSplitStats` — are embedded below
and the specified properties about them are proved or refuted.

Modelling conventions: JS numbers that only ever hold page numbers are
integers (`Int`, so that zero and negative inputs are representable);
channel values of an RGBA buffer are naturals; the two thresholds and the
fractional `totalPixels = data.length / 4` are rationals, since every
quantity the function compares is a ratio of small integers.  JS `Array.sort`
with the numeric comparator guarantees exactly a stable ascending sort, which
insertion sort realises.
-/

namespace SplitterPDF

/-! ### formatPageRanges -/

/-- Token emitted for one completed range of the walk:
`start === prev ? toString(start) : start ++ "-" ++ prev`. -/
def rangeToken (start prev : Int) : String :=
  if start = prev then toString start else toString start ++ "-" ++ toString prev

/-- Keep-first deduplication with an accumulator of already seen values; with
`seen = []` this is the insertion-order sequence produced by
`[...new Set(pageNumbers)]`. -/
def setDedup (seen : List Int) : List Int → List Int
  | [] => []
  | x :: xs => if x ∈ seen then setDedup seen xs else x :: setDedup (x :: seen) xs

/-- The line `[...new Set(pageNumbers)].sort((a, b) => a - b)` of the source:
deduplicate, then sort ascending. -/
def sortDedup (l : List Int) : List Int :=
  (setDedup [] l).insertionSort (· ≤ ·)

/-- The range-merging loop of `formatPageRanges`: `start` and `prev` delimit
the currently open range, the list argument is the not yet visited tail of the
sorted input; the final `push` of the source is the base case. -/
def rangesWalk (start prev : Int) : List Int → List String
  | [] => [rangeToken start prev]
  | current :: rest =>
      if current = prev + 1 then rangesWalk start current rest
      else rangeToken start prev :: rangesWalk current current rest

/-- The function `formatPageRanges` of the source.  The match on the sorted
list replaces the source's read of `sorted[0]`; the nil branch of the match is
unreachable, because deduplicating and sorting a nonempty list yields a
nonempty list. -/
def formatPageRanges (pageNumbers : List Int) : String :=
  if pageNumbers.isEmpty then "None"
  else
    match sortDedup pageNumbers with
    | [] => ""
    | x :: rest => String.intercalate ", " (rangesWalk x x rest)

/-- Specification-side definition (from the spec's description, to be compared
with the source's walk): split a sorted sequence into its maximal runs of
consecutive integers. -/
def splitRuns : List Int → List (List Int)
  | [] => []
  | [x] => [[x]]
  | x :: y :: rest =>
      match splitRuns (y :: rest) with
      | [] => [[x]]
      | r :: rs => if y = x + 1 then (x :: r) :: rs else [x] :: r :: rs

/-- Specification-side token of one maximal run: its first element when the
run is a singleton, else first-dash-last. -/
def runToken (r : List Int) : String :=
  rangeToken (r.headD 0) (r.getLastD 0)

/-- Specification-side description of `formatPageRanges`: deduplicate and sort
ascending, split into maximal consecutive runs, render each run as a token,
join the tokens with a comma and a space; an empty input gives `"None"`. -/
def specFormatRanges (pageNumbers : List Int) : String :=
  if pageNumbers.isEmpty then "None"
  else String.intercalate ", " ((splitRuns (sortDedup pageNumbers)).map runToken)

/-! ### analyzeImagePixelData -/

/-- Per-pixel chromatic deviation:
`Math.max(Math.abs(r - g), Math.abs(r - b), Math.abs(g - b))`. -/
def maxDiff (r g b : Nat) : Nat :=
  max ((r : Int) - g).natAbs (max ((r : Int) - b).natAbs ((g : Int) - b).natAbs)

/-- The pixel loop of `analyzeImagePixelData`: step through the buffer four
channel values at a time, counting pixels with `maxDiff > varianceThreshold`.
A trailing chunk of exactly three values still has its `r`, `g`, `b` reads in
bounds and is tested like a pixel (the alpha read past the end is never used);
for a trailing chunk of one or two values a channel read is out of bounds
(`undefined` in JS), the channel differences are `NaN`, and the comparison
with the threshold is false, so such a chunk never counts. -/
def countColorPixels (varianceThreshold : ℚ) : List Nat → Nat
  | r :: g :: b :: _ :: rest =>
      (if (maxDiff r g b : ℚ) > varianceThreshold then 1 else 0) +
        countColorPixels varianceThreshold rest
  | [r, g, b] => if (maxDiff r g b : ℚ) > varianceThreshold then 1 else 0
  | _ => 0

/-- The record returned by `analyzeImagePixelData`. -/
structure AnalyzeResult where
  isColor : Bool
  colorPixels : Nat
  totalPixels : ℚ
deriving DecidableEq, Repr

/-- The function `analyzeImagePixelData(data, varianceThreshold = 20,
coverageThreshold = 0.002)` of the source.  `totalPixels = data.length / 4` is
JS real division, exact on the rationals.  In JS the coverage
`colorPixelCount / totalPixels` is `NaN` when `totalPixels` is zero and
`NaN > coverageThreshold` is false; that zero case is written out explicitly,
every other case is an exact rational comparison. -/
def analyzeImagePixelData (data : List Nat) (varianceThreshold : ℚ := 20)
    (coverageThreshold : ℚ := 2 / 1000) : AnalyzeResult :=
  let colorPixelCount := countColorPixels varianceThreshold data
  let totalPixels : ℚ := (data.length : ℚ) / 4
  { isColor := if totalPixels = 0 then false
      else decide ((colorPixelCount : ℚ) / totalPixels > coverageThreshold)
    colorPixels := colorPixelCount
    totalPixels := totalPixels }

/-- The RGBA pixels of a buffer: its consecutive four-value chunks, projected
to the three color channels. -/
def pixels : List Nat → List (Nat × Nat × Nat)
  | r :: g :: b :: _ :: rest => (r, g, b) :: pixels rest
  | _ => []

/-! ### calculateSmartSplitStats -/

/-- One entry of the `allPagesStatus` argument of `calculateSmartSplitStats`:
`{ pageNumber: number; isColor: boolean }`. -/
structure PageStatus where
  pageNumber : Int
  isColor : Bool
deriving DecidableEq, Repr

/-- Lookup in the `pageMap` of the source, which is built by
`allPagesStatus.forEach(p => pageMap.set(p.pageNumber, p.isColor))`; since
`Map.set` overwrites, a later entry with the same page number wins.
`pageMapGet l k` is `pageMap.get(k)` of the map built from `l`. -/
def pageMapGet (l : List PageStatus) (k : Int) : Option Bool :=
  l.foldl (fun acc p => if p.pageNumber = k then some p.isColor else acc) none

/-- The status the sheet loop reads for a page: `pageMap.get(page) || false`
(a missing page, and a stored `false`, both give `false`). -/
def effColor (l : List PageStatus) (k : Int) : Bool :=
  (pageMapGet l k).getD false

/-- The effective color status of a (1-based) page number. -/
def effectiveColor (l : List PageStatus) (k : Nat) : Bool :=
  effColor l (k : Int)

/-- JS `Set.add` on a set kept in insertion order: idempotent insertion. -/
def addSet (s : List Nat) (x : Nat) : List Nat :=
  if x ∈ s then s else s ++ [x]

/-- The record returned by `calculateSmartSplitStats`; it doubles as the state
of the four accumulated sets inside the loop. -/
structure SheetBucketResult where
  doubleColorSheets : List Nat
  doubleBWSheets : List Nat
  mixedColorPages : List Nat
  mixedBWPages : List Nat
deriving DecidableEq, Repr

/-- The body of the sheet loop `for (let i = 1; i <= totalPages; i += 2)` of
the source for one odd sheet index `i`, acting on the four accumulated
sets. -/
def sheetStep (eff : Nat → Bool) (totalPages : Nat) (s : SheetBucketResult)
    (i : Nat) : SheetBucketResult :=
  let pageA := i
  let pageB := i + 1
  let isAColor := eff pageA
  let hasB := pageB ≤ totalPages
  let isBColor := if hasB then eff pageB else false
  if ¬hasB then
    if isAColor then { s with mixedColorPages := addSet s.mixedColorPages pageA }
    else { s with mixedBWPages := addSet s.mixedBWPages pageA }
  else if isAColor && isBColor then
    { s with doubleColorSheets := addSet (addSet s.doubleColorSheets pageA) pageB }
  else if !isAColor && !isBColor then
    { s with doubleBWSheets := addSet (addSet s.doubleBWSheets pageA) pageB }
  else
    let s1 :=
      if isAColor then { s with mixedColorPages := addSet s.mixedColorPages pageA }
      else { s with mixedBWPages := addSet s.mixedBWPages pageA }
    if isBColor then { s1 with mixedColorPages := addSet s1.mixedColorPages pageB }
    else { s1 with mixedBWPages := addSet s1.mixedBWPages pageB }

/-- The odd sheet indices `1, 3, 5, ...` up to `totalPages` that the loop
visits. -/
def sheetStarts (totalPages : Nat) : List Nat :=
  List.range' 1 ((totalPages + 1) / 2) 2

/-- Ascending numeric sort, the contract of
`Array.from(set).sort((a, b) => a - b)`. -/
def jsSortNat (l : List Nat) : List Nat :=
  l.insertionSort (· ≤ ·)

/-- The sheet loop and the final sorting of `calculateSmartSplitStats`, with
the page lookup `pageMap.get(k) || false` abstracted as `eff`. -/
def bucketizeEff (eff : Nat → Bool) (totalPages : Nat) : SheetBucketResult :=
  let s := (sheetStarts totalPages).foldl (sheetStep eff totalPages) ⟨[], [], [], []⟩
  { doubleColorSheets := jsSortNat s.doubleColorSheets
    doubleBWSheets := jsSortNat s.doubleBWSheets
    mixedColorPages := jsSortNat s.mixedColorPages
    mixedBWPages := jsSortNat s.mixedBWPages }

/-- The function `calculateSmartSplitStats` of the source: build the page map,
run the sheet loop over the odd indices, return the four sets sorted
ascending. -/
def calculateSmartSplitStats (allPagesStatus : List PageStatus)
    (totalPages : Nat) : SheetBucketResult :=
  bucketizeEff (effectiveColor allPagesStatus) totalPages

/-- The four buckets a page can land in. -/
inductive Bucket
  | doubleColor
  | doubleBW
  | mixedColor
  | mixedBW
deriving DecidableEq, Repr

/-- Closed form of the loop's decision for one page `k` with
`1 ≤ k ≤ totalPages`: the sheet of `k` starts at the odd index `a` (`k` itself
when `k` is odd, else `k - 1`); a trailing unpaired page goes to a mixed
bucket by its own status, a uniformly colored pair to the matching double
bucket, and a mixed pair sends each page to the mixed bucket of its own
status. -/
def pageBucket (eff : Nat → Bool) (totalPages k : Nat) : Bucket :=
  let a := if k % 2 = 1 then k else k - 1
  if totalPages < a + 1 then
    if eff k then .mixedColor else .mixedBW
  else if eff a && eff (a + 1) then .doubleColor
  else if !eff a && !eff (a + 1) then .doubleBW
  else if eff k then .mixedColor else .mixedBW

/-- The pages of `1..totalPages` that the loop sends to bucket `b`, in
ascending order. -/
def bucketPages (eff : Nat → Bool) (totalPages : Nat) (b : Bucket) : List Nat :=
  (List.range' 1 totalPages).filter (fun k => decide (pageBucket eff totalPages k = b))

/-- The pages among `1..bound` that `pageBucket` sends to bucket `b`. -/
def bucketPagesUpTo (eff : Nat → Bool) (totalPages bound : Nat) (b : Bucket) : List Nat :=
  (List.range' 1 bound).filter (fun k => decide (pageBucket eff totalPages k = b))

/-- The loop state whose four sets are the pages `1..bound` already placed,
each characterised by `pageBucket`. -/
def filtState (eff : Nat → Bool) (totalPages bound : Nat) : SheetBucketResult :=
  { doubleColorSheets := bucketPagesUpTo eff totalPages bound .doubleColor
    doubleBWSheets := bucketPagesUpTo eff totalPages bound .doubleBW
    mixedColorPages := bucketPagesUpTo eff totalPages bound .mixedColor
    mixedBWPages := bucketPagesUpTo eff totalPages bound .mixedBW }

/-- The six-page example of the spec: effective statuses T, T, F, F, T, F. -/
def ex6 : List PageStatus :=
  [⟨1, true⟩, ⟨2, true⟩, ⟨3, false⟩, ⟨4, false⟩, ⟨5, true⟩, ⟨6, false⟩]

/-! ### Page-map lemmas -/

/-- Folding the map-building step from any accumulator: the entries of `l`
override the accumulator exactly when one of them matches the key. -/
lemma pageMapGet_foldl (k : Int) :
    ∀ (l : List PageStatus) (acc : Option Bool),
      l.foldl (fun acc p => if p.pageNumber = k then some p.isColor else acc) acc =
        (pageMapGet l k).or acc := by
  intro l
  induction l with
  | nil => intro acc; simp [pageMapGet]
  | cons p l ih =>
    intro acc
    have hl : pageMapGet (p :: l) k =
        (pageMapGet l k).or (if p.pageNumber = k then some p.isColor else none) := by
      unfold pageMapGet
      rw [List.foldl_cons, ih]
      rfl
    rw [List.foldl_cons, ih, hl]
    rcases hM : pageMapGet l k with _ | b
    · simp only [Option.none_or]
      by_cases hp : p.pageNumber = k <;> simp [hp]
    · simp

/-- Lookup after prepending one entry: the tail (inserted later) wins. -/
lemma pageMapGet_cons (p : PageStatus) (l : List PageStatus) (k : Int) :
    pageMapGet (p :: l) k =
      (pageMapGet l k).or (if p.pageNumber = k then some p.isColor else none) := by
  unfold pageMapGet
  rw [List.foldl_cons, pageMapGet_foldl]
  rfl

/-- The lookup misses exactly when no entry carries the key. -/
lemma pageMapGet_eq_none (l : List PageStatus) (k : Int)
    (h : ∀ p ∈ l, p.pageNumber ≠ k) : pageMapGet l k = none := by
  induction l with
  | nil => rfl
  | cons p l ih =>
    rw [pageMapGet_cons, ih (fun q hq => h q (List.mem_cons_of_mem p hq)),
      if_neg (h p (List.mem_cons_self p l)), Option.none_or]

/-- Lookup across an append: the second block (inserted later) wins. -/
lemma pageMapGet_append (l₁ l₂ : List PageStatus) (k : Int) :
    pageMapGet (l₁ ++ l₂) k = (pageMapGet l₂ k).or (pageMapGet l₁ k) := by
  unfold pageMapGet
  rw [List.foldl_append, pageMapGet_foldl]
  rfl

/-- Entries that a filter keeps whenever they carry the key do not change the
lookup at that key. -/
lemma pageMapGet_filter (q : PageStatus → Bool) (l : List PageStatus) (k : Int)
    (hq : ∀ p, p.pageNumber = k → q p = true) :
    pageMapGet (l.filter q) k = pageMapGet l k := by
  induction l with
  | nil => rfl
  | cons p l ih =>
    by_cases hp : q p = true
    · rw [List.filter_cons_of_pos hp, pageMapGet_cons, pageMapGet_cons, ih]
    · have hpk : p.pageNumber ≠ k := fun hk => hp (hq p hk)
      rw [List.filter_cons_of_neg (by simpa using hp), pageMapGet_cons, if_neg hpk,
        Option.or_none, ih]

/-- With pairwise distinct page numbers the lookup is order-independent. -/
lemma pageMapGet_perm {l₁ l₂ : List PageStatus} (h : l₁.Perm l₂)
    (hnd : (l₁.map PageStatus.pageNumber).Nodup) (k : Int) :
    pageMapGet l₁ k = pageMapGet l₂ k := by
  induction h with
  | nil => rfl
  | cons x h ih =>
    rw [List.map_cons, List.nodup_cons] at hnd
    rw [pageMapGet_cons, pageMapGet_cons, ih hnd.2]
  | swap x y l =>
    rw [List.map_cons, List.map_cons, List.nodup_cons, List.nodup_cons] at hnd
    have hxy : y.pageNumber ≠ x.pageNumber := fun hx => hnd.1 (hx ▸ List.mem_cons_self _ _)
    rw [pageMapGet_cons, pageMapGet_cons, pageMapGet_cons, pageMapGet_cons]
    rcases hM : pageMapGet l k with _ | b
    · simp only [Option.none_or]
      by_cases hx : x.pageNumber = k
      · have hy : y.pageNumber ≠ k := fun hy => hxy (hy.trans hx.symm)
        simp [hx, hy]
      · by_cases hy : y.pageNumber = k <;> simp [hx, hy]
    · simp
  | trans h₁ h₂ ih₁ ih₂ =>
    have hnd₂ : (_ : List _).Nodup := (List.Perm.nodup_iff (h₁.map PageStatus.pageNumber)).mp hnd
    rw [ih₁ hnd, ih₂ hnd₂]

/-! ### Sheet-loop lemmas -/

/-- Members of a filtered initial range are bounded by the range. -/
lemma mem_filter_range_le {p : Nat → Bool} {L x : Nat}
    (h : x ∈ (List.range' 1 L).filter p) : x ≤ L := by
  have hx := (List.mem_filter.mp h).1
  rw [List.mem_range'] at hx
  obtain ⟨i, hi, rfl⟩ := hx
  omega

/-- Inserting a value larger than everything present appends it. -/
lemma addSet_of_forall_lt {s : List Nat} {x : Nat} (hs : ∀ y ∈ s, y < x) :
    addSet s x = s ++ [x] := by
  unfold addSet
  rw [if_neg]
  intro hmem
  exact absurd (hs x hmem) (by omega)

/-- Peeling the last element off a filtered initial range. -/
lemma filter_range_succ (p : Nat → Bool) (L : Nat) :
    (List.range' 1 (L + 1)).filter p =
      (List.range' 1 L).filter p ++ if p (L + 1) then [L + 1] else [] := by
  have h1 : (1 : Nat) + 1 * L = L + 1 := by omega
  rw [List.range'_concat, h1, List.filter_append]
  by_cases hp : p (L + 1) <;> simp [List.filter_cons, hp]

/-- Evaluation of `pageBucket` at an odd page. -/
lemma pageBucket_odd (eff : Nat → Bool) (n m : Nat) :
    pageBucket eff n (2 * m + 1) =
      if n < 2 * m + 2 then
        if eff (2 * m + 1) then .mixedColor else .mixedBW
      else if eff (2 * m + 1) && eff (2 * m + 2) then .doubleColor
      else if !eff (2 * m + 1) && !eff (2 * m + 2) then .doubleBW
      else if eff (2 * m + 1) then .mixedColor else .mixedBW := by
  have hpar : (2 * m + 1) % 2 = 1 := by omega
  unfold pageBucket
  simp only [hpar, if_pos]

/-- Evaluation of `pageBucket` at an even page. -/
lemma pageBucket_even (eff : Nat → Bool) (n m : Nat) :
    pageBucket eff n (2 * m + 2) =
      if n < 2 * m + 2 then
        if eff (2 * m + 2) then .mixedColor else .mixedBW
      else if eff (2 * m + 1) && eff (2 * m + 2) then .doubleColor
      else if !eff (2 * m + 1) && !eff (2 * m + 2) then .doubleBW
      else if eff (2 * m + 2) then .mixedColor else .mixedBW := by
  have hpar : ¬(2 * m + 2) % 2 = 1 := by omega
  have ha : 2 * m + 2 - 1 = 2 * m + 1 := by omega
  unfold pageBucket
  simp only [hpar, if_neg, if_false, ha]

lemma mem_bucketPagesUpTo_le {eff : Nat → Bool} {n L b} {x : Nat}
    (h : x ∈ bucketPagesUpTo eff n L b) : x ≤ L :=
  mem_filter_range_le h

/-- One pass of the loop body, starting from the state that has placed the
pages `1..2*m`, places the pages of the sheet starting at `2*m + 1` exactly as
`pageBucket` prescribes. -/
lemma sheetStep_filtState (eff : Nat → Bool) (n m : Nat) (h : 2 * m + 1 ≤ n) :
    sheetStep eff n (filtState eff n (2 * m)) (2 * m + 1) =
      filtState eff n (min (2 * m + 2) n) := by
  have hnorm : 2 * m + 1 + 1 = 2 * m + 2 := rfl
  have hbA : ∀ b : Bucket,
      addSet (bucketPagesUpTo eff n (2 * m) b) (2 * m + 1) =
        bucketPagesUpTo eff n (2 * m) b ++ [2 * m + 1] :=
    fun b => addSet_of_forall_lt (fun y hy =>
      lt_of_le_of_lt (mem_bucketPagesUpTo_le hy) (by omega))
  have hbB : ∀ b : Bucket,
      addSet (bucketPagesUpTo eff n (2 * m) b) (2 * m + 2) =
        bucketPagesUpTo eff n (2 * m) b ++ [2 * m + 2] :=
    fun b => addSet_of_forall_lt (fun y hy =>
      lt_of_le_of_lt (mem_bucketPagesUpTo_le hy) (by omega))
  have hbC : ∀ b : Bucket,
      addSet (bucketPagesUpTo eff n (2 * m) b ++ [2 * m + 1]) (2 * m + 2) =
        bucketPagesUpTo eff n (2 * m) b ++ [2 * m + 1] ++ [2 * m + 2] := by
    intro b
    apply addSet_of_forall_lt
    intro y hy
    rcases List.mem_append.mp hy with h1 | h1
    · exact lt_of_le_of_lt (mem_bucketPagesUpTo_le h1) (by omega)
    · rw [List.mem_singleton] at h1; omega
  by_cases hB : 2 * m + 2 ≤ n
  · have hmin : min (2 * m + 2) n = 2 * m + 2 := by omega
    have hodd := pageBucket_odd eff n m
    have heven := pageBucket_even eff n m
    rw [if_neg (by omega : ¬ n < 2 * m + 2)] at hodd heven
    have hrange : ∀ b : Bucket,
        bucketPagesUpTo eff n (2 * m + 2) b =
          bucketPagesUpTo eff n (2 * m) b ++
            ((if decide (pageBucket eff n (2 * m + 1) = b) then [2 * m + 1] else []) ++
              (if decide (pageBucket eff n (2 * m + 2) = b) then [2 * m + 2] else [])) := by
      intro b
      unfold bucketPagesUpTo
      rw [show 2 * m + 2 = (2 * m + 1) + 1 from rfl, filter_range_succ,
        filter_range_succ, List.append_assoc]
    rw [hmin]
    rcases ha : eff (2 * m + 1) <;> rcases hb : eff (2 * m + 2)
    · have hv1 : pageBucket eff n (2 * m + 1) = Bucket.doubleBW := by
        rw [hodd, ha, hb]; rfl
      have hv2 : pageBucket eff n (2 * m + 2) = Bucket.doubleBW := by
        rw [heven, ha, hb]; rfl
      simp only [sheetStep, hnorm]
      rw [if_neg (not_not_intro hB)]
      simp only [if_pos hB, ha, hb, Bool.false_and, Bool.and_false, Bool.not_false,
        Bool.true_and, Bool.and_self, Bool.false_eq_true, Bool.true_eq_false,
        if_false, if_true]
      simp only [filtState]
      rw [SheetBucketResult.mk.injEq]
      refine ⟨?_, ?_, ?_, ?_⟩ <;> rw [hrange] <;>
        simp [hv1, hv2, hbA, hbB, hbC]
    · have hv1 : pageBucket eff n (2 * m + 1) = Bucket.mixedBW := by
        rw [hodd, ha, hb]; rfl
      have hv2 : pageBucket eff n (2 * m + 2) = Bucket.mixedColor := by
        rw [heven, ha, hb]; rfl
      simp only [sheetStep, hnorm]
      rw [if_neg (not_not_intro hB)]
      simp only [if_pos hB, ha, hb, Bool.false_and, Bool.and_false, Bool.not_false,
        Bool.true_and, Bool.and_self, Bool.not_true, Bool.false_eq_true,
        Bool.true_eq_false, if_false, if_true]
      simp only [filtState]
      rw [SheetBucketResult.mk.injEq]
      refine ⟨?_, ?_, ?_, ?_⟩ <;> rw [hrange] <;>
        simp [hv1, hv2, hbA, hbB, hbC]
    · have hv1 : pageBucket eff n (2 * m + 1) = Bucket.mixedColor := by
        rw [hodd, ha, hb]; rfl
      have hv2 : pageBucket eff n (2 * m + 2) = Bucket.mixedBW := by
        rw [heven, ha, hb]; rfl
      simp only [sheetStep, hnorm]
      rw [if_neg (not_not_intro hB)]
      simp only [if_pos hB, ha, hb, Bool.false_and, Bool.and_false, Bool.not_false,
        Bool.true_and, Bool.and_self, Bool.not_true, Bool.false_eq_true,
        Bool.true_eq_false, if_false, if_true]
      simp only [filtState]
      rw [SheetBucketResult.mk.injEq]
      refine ⟨?_, ?_, ?_, ?_⟩ <;> rw [hrange] <;>
        simp [hv1, hv2, hbA, hbB, hbC]
    · have hv1 : pageBucket eff n (2 * m + 1) = Bucket.doubleColor := by
        rw [hodd, ha, hb]; rfl
      have hv2 : pageBucket eff n (2 * m + 2) = Bucket.doubleColor := by
        rw [heven, ha, hb]; rfl
      simp only [sheetStep, hnorm]
      rw [if_neg (not_not_intro hB)]
      simp only [if_pos hB, ha, hb, Bool.false_and, Bool.and_false, Bool.not_false,
        Bool.true_and, Bool.and_self, Bool.false_eq_true, Bool.true_eq_false,
        if_false, if_true]
      simp only [filtState]
      rw [SheetBucketResult.mk.injEq]
      refine ⟨?_, ?_, ?_, ?_⟩ <;> rw [hrange] <;>
        simp [hv1, hv2, hbA, hbB, hbC]
  · have hmin : min (2 * m + 2) n = 2 * m + 1 := by omega
    have hodd := pageBucket_odd eff n m
    rw [if_pos (by omega : n < 2 * m + 2)] at hodd
    have hrange : ∀ b : Bucket,
        bucketPagesUpTo eff n (2 * m + 1) b =
          bucketPagesUpTo eff n (2 * m) b ++
            (if decide (pageBucket eff n (2 * m + 1) = b) then [2 * m + 1] else []) := by
      intro b
      unfold bucketPagesUpTo
      rw [filter_range_succ]
    rw [hmin]
    rcases ha : eff (2 * m + 1)
    · have hv1 : pageBucket eff n (2 * m + 1) = Bucket.mixedBW := by
        rw [hodd, ha]; rfl
      simp only [sheetStep, hnorm]
      rw [if_pos hB]
      simp only [ha, Bool.false_eq_true, Bool.true_eq_false, if_false, if_true]
      simp only [filtState]
      rw [SheetBucketResult.mk.injEq]
      refine ⟨?_, ?_, ?_, ?_⟩ <;> rw [hrange] <;>
        simp [hv1, hbA]
    · have hv1 : pageBucket eff n (2 * m + 1) = Bucket.mixedColor := by
        rw [hodd, ha]; rfl
      simp only [sheetStep, hnorm]
      rw [if_pos hB]
      simp only [ha, Bool.false_eq_true, Bool.true_eq_false, if_false, if_true]
      simp only [filtState]
      rw [SheetBucketResult.mk.injEq]
      refine ⟨?_, ?_, ?_, ?_⟩ <;> rw [hrange] <;>
        simp [hv1, hbA]

/-- The loop over the first `m` sheets computes the closed form over the
pages `1..min (2*m) totalPages`. -/
lemma foldl_sheetStarts (eff : Nat → Bool) (n : Nat) :
    ∀ m, m ≤ (n + 1) / 2 →
      (List.range' 1 m 2).foldl (sheetStep eff n) ⟨[], [], [], []⟩ =
        filtState eff n (min (2 * m) n) := by
  intro m
  induction m with
  | zero =>
    intro _
    simp [filtState, bucketPagesUpTo]
  | succ m ih =>
    intro hm
    have h1 : 2 * m + 1 ≤ n := by omega
    rw [List.range'_concat, List.foldl_append, List.foldl_cons, List.foldl_nil,
      ih (by omega), show min (2 * m) n = 2 * m by omega,
      show (1 : Nat) + 2 * m = 2 * m + 1 by omega, sheetStep_filtState eff n m h1,
      show 2 * (m + 1) = 2 * m + 2 by omega]

/-- The whole of `calculateSmartSplitStats` after the page map is abstracted:
each returned array is exactly the ascending list of the pages of
`1..totalPages` that `pageBucket` sends to its bucket. -/
lemma bucketizeEff_eq_filtState (eff : Nat → Bool) (n : Nat) :
    bucketizeEff eff n = filtState eff n n := by
  have hsorted : ∀ b : Bucket, (bucketPagesUpTo eff n n b).Sorted (· ≤ ·) := by
    intro b
    exact ((List.pairwise_lt_range' 1 n 1).filter _).imp (fun hxy => le_of_lt hxy)
  have hfold := foldl_sheetStarts eff n ((n + 1) / 2) le_rfl
  rw [show min (2 * ((n + 1) / 2)) n = n by omega] at hfold
  unfold bucketizeEff sheetStarts
  rw [hfold]
  unfold filtState jsSortNat
  rw [SheetBucketResult.mk.injEq]
  exact ⟨(hsorted _).insertionSort_eq, (hsorted _).insertionSort_eq,
    (hsorted _).insertionSort_eq, (hsorted _).insertionSort_eq⟩

/-- Membership in a returned bucket, characterised by `pageBucket`. -/
lemma mem_bucketPagesUpTo (eff : Nat → Bool) (n k : Nat) (b : Bucket) :
    k ∈ bucketPagesUpTo eff n n b ↔ (1 ≤ k ∧ k ≤ n ∧ pageBucket eff n k = b) := by
  unfold bucketPagesUpTo
  rw [List.mem_filter, List.mem_range']
  constructor
  · rintro ⟨⟨i, hi, rfl⟩, hp⟩
    exact ⟨by omega, by omega, of_decide_eq_true hp⟩
  · rintro ⟨h1, h2, h3⟩
    exact ⟨⟨k - 1, by omega, by omega⟩, decide_eq_true h3⟩

/-- The result only depends on the effective statuses of the pages
`1..totalPages`. -/
lemma pageBucket_congr {eff₁ eff₂ : Nat → Bool} {n k : Nat}
    (h : ∀ j, 1 ≤ j → j ≤ n → eff₁ j = eff₂ j) (hk1 : 1 ≤ k) (hk2 : k ≤ n) :
    pageBucket eff₁ n k = pageBucket eff₂ n k := by
  unfold pageBucket
  by_cases hpar : k % 2 = 1
  · simp only [hpar, if_pos]
    by_cases hn : n < k + 1
    · rw [if_pos hn, if_pos hn, h k hk1 hk2]
    · rw [if_neg hn, if_neg hn, h k hk1 hk2, h (k + 1) (by omega) (by omega)]
  · simp only [hpar, if_neg, if_false]
    have heq : k - 1 + 1 = k := by omega
    have hn : ¬ n < k := by omega
    rw [heq, if_neg hn, if_neg hn, h k hk1 hk2, h (k - 1) (by omega) (by omega)]

/-- Congruence of the whole computation in the effective statuses of the
in-range pages. -/
lemma bucketizeEff_congr {eff₁ eff₂ : Nat → Bool} {n : Nat}
    (h : ∀ j, 1 ≤ j → j ≤ n → eff₁ j = eff₂ j) :
    bucketizeEff eff₁ n = bucketizeEff eff₂ n := by
  rw [bucketizeEff_eq_filtState, bucketizeEff_eq_filtState]
  unfold filtState bucketPagesUpTo
  have hfilter : ∀ b : Bucket,
      (List.range' 1 n).filter (fun k => decide (pageBucket eff₁ n k = b)) =
        (List.range' 1 n).filter (fun k => decide (pageBucket eff₂ n k = b)) := by
    intro b
    apply List.filter_congr
    intro k hk
    rw [List.mem_range'] at hk
    obtain ⟨i, hi, rfl⟩ := hk
    rw [pageBucket_congr h (by omega) (by omega)]
  rw [SheetBucketResult.mk.injEq]
  exact ⟨hfilter _, hfilter _, hfilter _, hfilter _⟩

/-- The result record, in closed form. -/
lemma calculateSmartSplitStats_eq (l : List PageStatus) (n : Nat) :
    calculateSmartSplitStats l n = filtState (effectiveColor l) n n :=
  bucketizeEff_eq_filtState _ n

/-- Each returned array is strictly ascending. -/
lemma sorted_bucketPagesUpTo (eff : Nat → Bool) (n L : Nat) (b : Bucket) :
    (bucketPagesUpTo eff n L b).Sorted (· < ·) :=
  (List.pairwise_lt_range' 1 L 1).filter _

/-- Arrays of distinct buckets share no page. -/
lemma bucketPagesUpTo_disjoint (eff : Nat → Bool) (n : Nat) {b₁ b₂ : Bucket}
    (hne : b₁ ≠ b₂) :
    (bucketPagesUpTo eff n n b₁).Disjoint (bucketPagesUpTo eff n n b₂) := by
  intro a h1 h2
  rw [mem_bucketPagesUpTo] at h1 h2
  exact hne (h1.2.2.symm.trans h2.2.2)

/-- Congruence of the result in the effective statuses of the in-range
pages. -/
lemma calculateSmartSplitStats_congr {l₁ l₂ : List PageStatus} {n : Nat}
    (h : ∀ j : Nat, 1 ≤ j → j ≤ n → effectiveColor l₁ j = effectiveColor l₂ j) :
    calculateSmartSplitStats l₁ n = calculateSmartSplitStats l₂ n :=
  bucketizeEff_congr h

/-! ### Claim theorems about calculateSmartSplitStats -/

/-- C1: for every input list of page classifications and every number of
pages, the four arrays returned by `calculateSmartSplitStats` are each sorted
strictly ascending (hence duplicate-free), pairwise disjoint, and their union
is exactly the set of pages `1..totalPages`. -/
theorem claim_C1_bucketize_partition (l : List PageStatus) (n : Nat) :
    ((calculateSmartSplitStats l n).doubleColorSheets.Sorted (· < ·) ∧
      (calculateSmartSplitStats l n).doubleBWSheets.Sorted (· < ·) ∧
      (calculateSmartSplitStats l n).mixedColorPages.Sorted (· < ·) ∧
      (calculateSmartSplitStats l n).mixedBWPages.Sorted (· < ·)) ∧
    ((calculateSmartSplitStats l n).doubleColorSheets.Disjoint
        (calculateSmartSplitStats l n).doubleBWSheets ∧
      (calculateSmartSplitStats l n).doubleColorSheets.Disjoint
        (calculateSmartSplitStats l n).mixedColorPages ∧
      (calculateSmartSplitStats l n).doubleColorSheets.Disjoint
        (calculateSmartSplitStats l n).mixedBWPages ∧
      (calculateSmartSplitStats l n).doubleBWSheets.Disjoint
        (calculateSmartSplitStats l n).mixedColorPages ∧
      (calculateSmartSplitStats l n).doubleBWSheets.Disjoint
        (calculateSmartSplitStats l n).mixedBWPages ∧
      (calculateSmartSplitStats l n).mixedColorPages.Disjoint
        (calculateSmartSplitStats l n).mixedBWPages) ∧
    (∀ k : Nat,
      (k ∈ (calculateSmartSplitStats l n).doubleColorSheets ∨
        k ∈ (calculateSmartSplitStats l n).doubleBWSheets ∨
        k ∈ (calculateSmartSplitStats l n).mixedColorPages ∨
        k ∈ (calculateSmartSplitStats l n).mixedBWPages) ↔
      (1 ≤ k ∧ k ≤ n)) := by
  rw [calculateSmartSplitStats_eq]
  unfold filtState
  refine ⟨⟨sorted_bucketPagesUpTo _ _ _ _, sorted_bucketPagesUpTo _ _ _ _,
      sorted_bucketPagesUpTo _ _ _ _, sorted_bucketPagesUpTo _ _ _ _⟩,
    ⟨bucketPagesUpTo_disjoint _ _ (by simp), bucketPagesUpTo_disjoint _ _ (by simp),
      bucketPagesUpTo_disjoint _ _ (by simp), bucketPagesUpTo_disjoint _ _ (by simp),
      bucketPagesUpTo_disjoint _ _ (by simp), bucketPagesUpTo_disjoint _ _ (by simp)⟩,
    ?_⟩
  intro k
  simp only [mem_bucketPagesUpTo]
  constructor
  · rintro (⟨h1, h2, _⟩ | ⟨h1, h2, _⟩ | ⟨h1, h2, _⟩ | ⟨h1, h2, _⟩) <;> exact ⟨h1, h2⟩
  · rintro ⟨h1, h2⟩
    rcases hb : pageBucket (effectiveColor l) n k with _ | _ | _ | _
    · exact Or.inl ⟨h1, h2, rfl⟩
    · exact Or.inr (Or.inl ⟨h1, h2, rfl⟩)
    · exact Or.inr (Or.inr (Or.inl ⟨h1, h2, rfl⟩))
    · exact Or.inr (Or.inr (Or.inr ⟨h1, h2, rfl⟩))

/-- Membership in each returned array, characterised by `pageBucket`. -/
lemma mem_smartSplit (l : List PageStatus) (n k : Nat) :
    (k ∈ (calculateSmartSplitStats l n).doubleColorSheets ↔
      1 ≤ k ∧ k ≤ n ∧ pageBucket (effectiveColor l) n k = .doubleColor) ∧
    (k ∈ (calculateSmartSplitStats l n).doubleBWSheets ↔
      1 ≤ k ∧ k ≤ n ∧ pageBucket (effectiveColor l) n k = .doubleBW) ∧
    (k ∈ (calculateSmartSplitStats l n).mixedColorPages ↔
      1 ≤ k ∧ k ≤ n ∧ pageBucket (effectiveColor l) n k = .mixedColor) ∧
    (k ∈ (calculateSmartSplitStats l n).mixedBWPages ↔
      1 ≤ k ∧ k ≤ n ∧ pageBucket (effectiveColor l) n k = .mixedBW) := by
  rw [calculateSmartSplitStats_eq]
  exact ⟨mem_bucketPagesUpTo _ _ _ _, mem_bucketPagesUpTo _ _ _ _,
    mem_bucketPagesUpTo _ _ _ _, mem_bucketPagesUpTo _ _ _ _⟩

/-- C2: for every odd sheet index `i` with a partner `i + 1 ≤ totalPages`,
both pages of a uniformly colored sheet go to the matching double bucket, and
a mixed sheet sends each of its two pages to the mixed bucket of that page's
own status; an unpaired trailing odd page goes alone to the mixed bucket of
its own status.  On the six-page example with statuses T, T, F, F, T, F the
result is exactly doubleColorSheets = [1, 2], doubleBWSheets = [3, 4],
mixedColorPages = [5], mixedBWPages = [6]. -/
theorem claim_C2_sheet_rules :
    (∀ (l : List PageStatus) (n i : Nat), i % 2 = 1 → i + 1 ≤ n →
      (effectiveColor l i = true → effectiveColor l (i + 1) = true →
        i ∈ (calculateSmartSplitStats l n).doubleColorSheets ∧
          i + 1 ∈ (calculateSmartSplitStats l n).doubleColorSheets) ∧
      (effectiveColor l i = false → effectiveColor l (i + 1) = false →
        i ∈ (calculateSmartSplitStats l n).doubleBWSheets ∧
          i + 1 ∈ (calculateSmartSplitStats l n).doubleBWSheets) ∧
      (effectiveColor l i = true → effectiveColor l (i + 1) = false →
        i ∈ (calculateSmartSplitStats l n).mixedColorPages ∧
          i + 1 ∈ (calculateSmartSplitStats l n).mixedBWPages) ∧
      (effectiveColor l i = false → effectiveColor l (i + 1) = true →
        i ∈ (calculateSmartSplitStats l n).mixedBWPages ∧
          i + 1 ∈ (calculateSmartSplitStats l n).mixedColorPages)) ∧
    (∀ (l : List PageStatus) (n i : Nat), i % 2 = 1 → i ≤ n → n < i + 1 →
      (effectiveColor l i = true →
        i ∈ (calculateSmartSplitStats l n).mixedColorPages) ∧
      (effectiveColor l i = false →
        i ∈ (calculateSmartSplitStats l n).mixedBWPages)) ∧
    calculateSmartSplitStats ex6 6 =
      { doubleColorSheets := [1, 2], doubleBWSheets := [3, 4],
        mixedColorPages := [5], mixedBWPages := [6] } := by
  refine ⟨?_, ?_, by decide⟩
  · intro l n i hodd hle
    obtain ⟨m, rfl⟩ : ∃ m, i = 2 * m + 1 := ⟨i / 2, by omega⟩
    have hodd2 := pageBucket_odd (effectiveColor l) n m
    have heven2 := pageBucket_even (effectiveColor l) n m
    rw [if_neg (by omega : ¬ n < 2 * m + 2)] at hodd2 heven2
    refine ⟨?_, ?_, ?_, ?_⟩ <;> intro h1 h2
    · have hv1 : pageBucket (effectiveColor l) n (2 * m + 1) = .doubleColor := by
        rw [hodd2, h1, h2]; rfl
      have hv2 : pageBucket (effectiveColor l) n (2 * m + 2) = .doubleColor := by
        rw [heven2, h1, h2]; rfl
      exact ⟨(mem_smartSplit l n _).1.mpr ⟨by omega, by omega, hv1⟩,
        (mem_smartSplit l n _).1.mpr ⟨by omega, by omega, hv2⟩⟩
    · have hv1 : pageBucket (effectiveColor l) n (2 * m + 1) = .doubleBW := by
        rw [hodd2, h1, h2]; rfl
      have hv2 : pageBucket (effectiveColor l) n (2 * m + 2) = .doubleBW := by
        rw [heven2, h1, h2]; rfl
      exact ⟨(mem_smartSplit l n _).2.1.mpr ⟨by omega, by omega, hv1⟩,
        (mem_smartSplit l n _).2.1.mpr ⟨by omega, by omega, hv2⟩⟩
    · have hv1 : pageBucket (effectiveColor l) n (2 * m + 1) = .mixedColor := by
        rw [hodd2, h1, h2]; rfl
      have hv2 : pageBucket (effectiveColor l) n (2 * m + 2) = .mixedBW := by
        rw [heven2, h1, h2]; rfl
      exact ⟨(mem_smartSplit l n _).2.2.1.mpr ⟨by omega, by omega, hv1⟩,
        (mem_smartSplit l n _).2.2.2.mpr ⟨by omega, by omega, hv2⟩⟩
    · have hv1 : pageBucket (effectiveColor l) n (2 * m + 1) = .mixedBW := by
        rw [hodd2, h1, h2]; rfl
      have hv2 : pageBucket (effectiveColor l) n (2 * m + 2) = .mixedColor := by
        rw [heven2, h1, h2]; rfl
      exact ⟨(mem_smartSplit l n _).2.2.2.mpr ⟨by omega, by omega, hv1⟩,
        (mem_smartSplit l n _).2.2.1.mpr ⟨by omega, by omega, hv2⟩⟩
  · intro l n i hodd hle hgt
    obtain ⟨m, rfl⟩ : ∃ m, i = 2 * m + 1 := ⟨i / 2, by omega⟩
    have hodd2 := pageBucket_odd (effectiveColor l) n m
    rw [if_pos (by omega : n < 2 * m + 2)] at hodd2
    refine ⟨?_, ?_⟩ <;> intro h1
    · have hv1 : pageBucket (effectiveColor l) n (2 * m + 1) = .mixedColor := by
        rw [hodd2, h1]; rfl
      exact (mem_smartSplit l n _).2.2.1.mpr ⟨by omega, by omega, hv1⟩
    · have hv1 : pageBucket (effectiveColor l) n (2 * m + 1) = .mixedBW := by
        rw [hodd2, h1]; rfl
      exact (mem_smartSplit l n _).2.2.2.mpr ⟨by omega, by omega, hv1⟩

/-- Witness for C2 at the six-page example: sheet 1 is a perfect color double
and page 5 of the mixed sheet 3 lands in `mixedColorPages`. -/
theorem claim_C2_witness :
    (1 ∈ (calculateSmartSplitStats ex6 6).doubleColorSheets ∧
      2 ∈ (calculateSmartSplitStats ex6 6).doubleColorSheets) ∧
    (5 ∈ (calculateSmartSplitStats ex6 6).mixedColorPages ∧
      6 ∈ (calculateSmartSplitStats ex6 6).mixedBWPages) :=
  ⟨(claim_C2_sheet_rules.1 ex6 6 1 (by decide) (by omega)).1 (by decide) (by decide),
    (claim_C2_sheet_rules.1 ex6 6 5 (by decide) (by omega)).2.2.1 (by decide) (by decide)⟩

/-- C5: a page of `1..totalPages` with no classification record in the input
is treated as B&W: the status the loop reads for it is `false`, and prepending
an explicit B&W record for that page leaves the result unchanged. -/
theorem claim_C5_missing_defaults_bw (l : List PageStatus) (n p : Nat)
    (h1 : 1 ≤ p) (h2 : p ≤ n)
    (h3 : (p : Int) ∉ l.map PageStatus.pageNumber) :
    effectiveColor l p = false ∧
      calculateSmartSplitStats l n =
        calculateSmartSplitStats
          ({ pageNumber := (p : Int), isColor := false } :: l) n := by
  have hnone : pageMapGet l (p : Int) = none :=
    pageMapGet_eq_none l _ (fun q hq heq => h3 (List.mem_map.mpr ⟨q, hq, heq⟩))
  constructor
  · unfold effectiveColor effColor
    rw [hnone]
    rfl
  · apply calculateSmartSplitStats_congr
    intro j _ _
    unfold effectiveColor effColor
    rw [pageMapGet_cons]
    rcases hM : pageMapGet l (j : Int) with _ | b
    · rw [Option.none_or]
      by_cases hpj : ((p : Int)) = (j : Int) <;> simp [hpj]
    · rw [Option.or_some]

/-- Witness for C5: page 2 is missing from a one-record input for a two-page
document. -/
theorem claim_C5_witness :
    effectiveColor [⟨1, true⟩] 2 = false ∧
      calculateSmartSplitStats [⟨1, true⟩] 2 =
        calculateSmartSplitStats [⟨2, false⟩, ⟨1, true⟩] 2 :=
  claim_C5_missing_defaults_bw [⟨1, true⟩] 2 2 (by omega) (by omega) (by decide)

/-- C6: on inputs with pairwise distinct page numbers the result is
order-independent: any permutation of the input yields the same four
arrays. -/
theorem claim_C6_order_independent (l₁ l₂ : List PageStatus) (n : Nat)
    (hperm : l₁.Perm l₂) (hnd : (l₁.map PageStatus.pageNumber).Nodup) :
    calculateSmartSplitStats l₁ n = calculateSmartSplitStats l₂ n := by
  apply calculateSmartSplitStats_congr
  intro j _ _
  unfold effectiveColor effColor
  rw [pageMapGet_perm hperm hnd]

/-- Witness for C6: swapping a two-record input. -/
theorem claim_C6_witness :
    calculateSmartSplitStats [⟨2, false⟩, ⟨1, true⟩] 2 =
      calculateSmartSplitStats [⟨1, true⟩, ⟨2, false⟩] 2 :=
  claim_C6_order_independent _ _ 2 (by decide) (by decide)

/-- C9, counterexample to the claimed fail-fast validation: a duplicate page
number does not make `calculateSmartSplitStats` fail — the source has no
`InvalidPageNumberError` and no validation at all; the duplicated page 1 is
silently resolved (the later record, B&W, wins) and a normal result is
returned. -/
theorem claim_C9_cex :
    calculateSmartSplitStats [⟨1, true⟩, ⟨1, false⟩] 2 =
      { doubleColorSheets := [], doubleBWSheets := [1, 2],
        mixedColorPages := [], mixedBWPages := [] } := by
  decide

/-- C9 as amended: `calculateSmartSplitStats` performs no input validation and
never fails; a duplicated page number is resolved by letting the later record
win (the earlier record is silently dropped), and a record with a zero or
negative page number is silently ignored. -/
theorem claim_C9_amended_no_validation :
    (∀ (l : List PageStatus) (p q : PageStatus) (n : Nat),
      p.pageNumber = q.pageNumber →
      calculateSmartSplitStats (l ++ [p, q]) n =
        calculateSmartSplitStats (l ++ [q]) n) ∧
    (∀ (l : List PageStatus) (p : PageStatus) (n : Nat), p.pageNumber ≤ 0 →
      calculateSmartSplitStats (p :: l) n = calculateSmartSplitStats l n) := by
  constructor
  · intro l p q n hpq
    apply calculateSmartSplitStats_congr
    intro j _ _
    unfold effectiveColor effColor
    rw [pageMapGet_append, pageMapGet_append]
    have hpair : pageMapGet [p, q] (j : Int) = pageMapGet [q] (j : Int) := by
      have h1 : pageMapGet [p, q] (j : Int) =
          (pageMapGet [q] (j : Int)).or
            (if p.pageNumber = (j : Int) then some p.isColor else none) :=
        pageMapGet_cons p [q] (j : Int)
      have h2 : pageMapGet [q] (j : Int) =
          if q.pageNumber = (j : Int) then some q.isColor else none := by
        rw [pageMapGet_cons q [] (j : Int)]
        rfl
      rw [h1, h2]
      by_cases hq : q.pageNumber = (j : Int)
      · rw [if_pos hq, Option.or_some]
      · rw [if_neg hq, if_neg (fun hp => hq (hpq ▸ hp)), Option.none_or]
    rw [hpair]
  · intro l p n hp
    apply calculateSmartSplitStats_congr
    intro j hj1 _
    unfold effectiveColor effColor
    have hne : ¬ p.pageNumber = (j : Int) := by omega
    rw [pageMapGet_cons, if_neg hne, Option.or_none]

/-- Witness for the amended C9: the duplicate-1 input collapses to its later
record, and a page-0 record is ignored. -/
theorem claim_C9_amended_witness :
    calculateSmartSplitStats [⟨1, true⟩, ⟨1, false⟩] 2 =
      calculateSmartSplitStats [⟨1, false⟩] 2 ∧
    calculateSmartSplitStats [⟨0, true⟩, ⟨1, true⟩] 1 =
      calculateSmartSplitStats [⟨1, true⟩] 1 :=
  ⟨claim_C9_amended_no_validation.1 [] ⟨1, true⟩ ⟨1, false⟩ 2 rfl,
    claim_C9_amended_no_validation.2 [⟨1, true⟩] ⟨0, true⟩ 1 (by decide)⟩

/-- C10: records whose page number lies outside `1..totalPages` have no
effect: removing all of them leaves the result unchanged. -/
theorem claim_C10_out_of_range_ignored (l : List PageStatus) (n : Nat) :
    calculateSmartSplitStats l n =
      calculateSmartSplitStats
        (l.filter (fun p => 1 ≤ p.pageNumber && p.pageNumber ≤ (n : Int))) n := by
  apply calculateSmartSplitStats_congr
  intro j hj1 hj2
  have hq : ∀ p : PageStatus, p.pageNumber = (j : Int) →
      (1 ≤ p.pageNumber && p.pageNumber ≤ (n : Int)) = true := by
    intro p hp
    rw [hp]
    simp only [Bool.and_eq_true, decide_eq_true_eq]
    omega
  unfold effectiveColor effColor
  rw [pageMapGet_filter _ l _ hq]

/-! ### Pixel-loop lemmas -/

/-- The pixel loop distributes over an append at a four-aligned cut. -/
lemma countColorPixels_append (vt : ℚ) :
    ∀ head tail : List Nat, head.length % 4 = 0 →
      countColorPixels vt (head ++ tail) =
        countColorPixels vt head + countColorPixels vt tail := by
  have key : ∀ (L : Nat) (head tail : List Nat), head.length ≤ L →
      head.length % 4 = 0 →
      countColorPixels vt (head ++ tail) =
        countColorPixels vt head + countColorPixels vt tail := by
    intro L
    induction L with
    | zero =>
      intro head tail hlen hmod
      have hnil : head = [] := List.eq_nil_of_length_eq_zero (by omega)
      subst hnil
      simp [countColorPixels]
    | succ L ih =>
      intro head tail hlen hmod
      match head with
      | [] => simp [countColorPixels]
      | [r] => simp at hmod
      | [r, g] => simp at hmod
      | [r, g, b] => simp at hmod
      | r :: g :: b :: a :: rest =>
        have hrest : rest.length % 4 = 0 := by
          simp only [List.length_cons] at hmod
          omega
        have hrlen : rest.length ≤ L := by
          simp only [List.length_cons] at hlen
          omega
        simp only [List.cons_append, List.append_eq, countColorPixels]
        rw [ih rest tail hrlen hrest]
        omega
  intro head tail hmod
  exact key head.length head tail le_rfl hmod

/-- On a well-formed buffer the loop's count is the count over the pixel
chunks. -/
lemma countColorPixels_eq_countP (vt : ℚ) :
    ∀ data : List Nat, data.length % 4 = 0 →
      countColorPixels vt data =
        (pixels data).countP
          (fun px => decide ((maxDiff px.1 px.2.1 px.2.2 : ℚ) > vt)) := by
  have key : ∀ (L : Nat) (data : List Nat), data.length ≤ L →
      data.length % 4 = 0 →
      countColorPixels vt data =
        (pixels data).countP
          (fun px => decide ((maxDiff px.1 px.2.1 px.2.2 : ℚ) > vt)) := by
    intro L
    induction L with
    | zero =>
      intro data hlen hmod
      have hnil : data = [] := List.eq_nil_of_length_eq_zero (by omega)
      subst hnil
      simp [countColorPixels, pixels]
    | succ L ih =>
      intro data hlen hmod
      match data with
      | [] => simp [countColorPixels, pixels]
      | [r] => simp at hmod
      | [r, g] => simp at hmod
      | [r, g, b] => simp at hmod
      | r :: g :: b :: a :: rest =>
        have hrest : rest.length % 4 = 0 := by
          simp only [List.length_cons] at hmod
          omega
        have hrlen : rest.length ≤ L := by
          simp only [List.length_cons] at hlen
          omega
        simp only [countColorPixels, pixels, List.countP_cons]
        rw [ih rest hrlen hrest]
        by_cases hpx : (maxDiff r g b : ℚ) > vt <;> simp [hpx] <;> omega
  intro data hmod
  exact key data.length data le_rfl hmod

/-- A gray pixel has no chromatic deviation at all. -/
lemma maxDiff_self (r : Nat) : maxDiff r r r = 0 := by
  simp [maxDiff]

/-! ### Claim theorems about analyzeImagePixelData -/

/-- C7: on an empty buffer `analyzeImagePixelData` is defined (no division by
zero occurs: in JS the coverage is `NaN` and compares false) and returns
`isColor = false`, zero color pixels and zero total pixels, whatever the two
thresholds are. -/
theorem claim_C7_empty_buffer (vt ct : ℚ) :
    analyzeImagePixelData [] vt ct =
      { isColor := false, colorPixels := 0, totalPixels := 0 } := by
  unfold analyzeImagePixelData
  norm_num [countColorPixels]

/-- C3, counterexample to the all-gray clause as stated: the claim quantifies
over every pair of thresholds but concludes `isColor = false` on all-gray
buffers from `varianceThreshold ≥ 0` alone; with the (degenerate) negative
coverage threshold `-1` the all-gray one-pixel buffer `[5, 5, 5, 0]` has
coverage `0 > -1` and the code returns `isColor = true`. -/
theorem claim_C3_cex :
    pixels [5, 5, 5, 0] = [(5, 5, 5)] ∧
    (analyzeImagePixelData [5, 5, 5, 0] 0 (-1)).isColor = true := by
  constructor
  · rfl
  · unfold analyzeImagePixelData
    norm_num [countColorPixels, maxDiff]

/-- C3 as amended (the all-gray conclusion additionally needs the coverage
threshold to be nonnegative, as it is for the default `0.002`): on a buffer
whose length is a multiple of four, `totalPixels` is the pixel count
`length / 4`, `colorPixels` counts exactly the pixels whose `maxDiff` strictly
exceeds the variance threshold, on a nonempty buffer `isColor` holds iff the
color-pixel ratio strictly exceeds the coverage threshold, and an all-gray
buffer with nonnegative thresholds is never classified as color. -/
theorem claim_C3_amended_classifier (data : List Nat) (vt ct : ℚ)
    (hlen : data.length % 4 = 0) :
    (analyzeImagePixelData data vt ct).totalPixels = (data.length : ℚ) / 4 ∧
    (analyzeImagePixelData data vt ct).colorPixels =
      (pixels data).countP
        (fun px => decide ((maxDiff px.1 px.2.1 px.2.2 : ℚ) > vt)) ∧
    (data ≠ [] →
      ((analyzeImagePixelData data vt ct).isColor = true ↔
        ((analyzeImagePixelData data vt ct).colorPixels : ℚ) /
            (analyzeImagePixelData data vt ct).totalPixels > ct)) ∧
    ((∀ px ∈ pixels data, px.1 = px.2.1 ∧ px.2.1 = px.2.2) → 0 ≤ vt → 0 ≤ ct →
      (analyzeImagePixelData data vt ct).isColor = false) := by
  have htot : (analyzeImagePixelData data vt ct).totalPixels =
      (data.length : ℚ) / 4 := rfl
  have hcnt : (analyzeImagePixelData data vt ct).colorPixels =
      countColorPixels vt data := rfl
  refine ⟨htot, hcnt.trans (countColorPixels_eq_countP vt data hlen), ?_, ?_⟩
  · intro hne
    have hlpos : 0 < data.length := List.length_pos.mpr hne
    have htne : ((data.length : ℚ) / 4) ≠ 0 := by
      positivity
    show (if (data.length : ℚ) / 4 = 0 then false
        else decide ((countColorPixels vt data : ℚ) / ((data.length : ℚ) / 4) > ct))
          = true ↔ _
    rw [if_neg htne, decide_eq_true_eq, htot, hcnt]
  · intro hgray hvt hct
    have hzero : countColorPixels vt data = 0 := by
      rw [countColorPixels_eq_countP vt data hlen, List.countP_eq_zero]
      intro px hpx
      obtain ⟨h1, h2⟩ := hgray px hpx
      have : maxDiff px.1 px.2.1 px.2.2 = 0 := by
        obtain ⟨a, b, c⟩ := px
        simp only at h1 h2
        subst h1
        subst h2
        exact maxDiff_self a
      rw [this]
      simp
      exact hvt
    show (if (data.length : ℚ) / 4 = 0 then false
        else decide ((countColorPixels vt data : ℚ) / ((data.length : ℚ) / 4) > ct))
          = false
    by_cases hz : ((data.length : ℚ) / 4) = 0
    · rw [if_pos hz]
    · rw [if_neg hz, hzero]
      simp only [Nat.cast_zero, zero_div, decide_eq_false_iff_not]
      exact not_lt.mpr hct

/-- Witness for the amended C3: one strongly colored pixel makes a one-pixel
buffer color under the default thresholds, and an all-gray pixel does not. -/
theorem claim_C3_amended_witness :
    ((analyzeImagePixelData [10, 200, 10, 255] 20 (2 / 1000)).isColor = true ↔
      ((analyzeImagePixelData [10, 200, 10, 255] 20 (2 / 1000)).colorPixels : ℚ) /
          (analyzeImagePixelData [10, 200, 10, 255] 20 (2 / 1000)).totalPixels >
        2 / 1000) ∧
    (analyzeImagePixelData [7, 7, 7, 0] 20 (2 / 1000)).isColor = false := by
  constructor
  · exact (claim_C3_amended_classifier [10, 200, 10, 255] 20 (2 / 1000)
      (by decide)).2.2.1 (by decide)
  · exact (claim_C3_amended_classifier [7, 7, 7, 0] 20 (2 / 1000)
      (by decide)).2.2.2 (by decide) (by norm_num) (by norm_num)

/-- C8, counterexample to the claimed raise on malformed buffers: the source
defines no `InvalidBufferError` and `analyzeImagePixelData` cannot fail; on
the length-3 buffer `[255, 0, 0]` it simply returns a normal record (the three
trailing values are tested as a pixel and the pixel total is the fractional
`3 / 4`). -/
theorem claim_C8_cex :
    analyzeImagePixelData [255, 0, 0] 20 (2 / 1000) =
      { isColor := true, colorPixels := 1, totalPixels := 3 / 4 } := by
  unfold analyzeImagePixelData
  norm_num [countColorPixels, maxDiff]

/-- C8 as amended: `analyzeImagePixelData` never raises, on well-formed and
malformed buffers alike; after a four-aligned prefix, a trailing chunk of
three values is tested as one more pixel, a trailing chunk of one or two
values is ignored by the count, and the returned pixel total is always the
exact (possibly fractional) `length / 4`. -/
theorem claim_C8_amended_total (head : List Nat) (vt ct : ℚ)
    (hlen : head.length % 4 = 0) :
    (∀ r g b : Nat,
      (analyzeImagePixelData (head ++ [r, g, b]) vt ct).colorPixels =
        (analyzeImagePixelData head vt ct).colorPixels +
          (if (maxDiff r g b : ℚ) > vt then 1 else 0)) ∧
    (∀ tail : List Nat, tail.length ≤ 2 →
      (analyzeImagePixelData (head ++ tail) vt ct).colorPixels =
        (analyzeImagePixelData head vt ct).colorPixels) ∧
    (∀ tail : List Nat,
      (analyzeImagePixelData (head ++ tail) vt ct).totalPixels =
        ((head.length : ℚ) + (tail.length : ℚ)) / 4) := by
  refine ⟨?_, ?_, ?_⟩
  · intro r g b
    show countColorPixels vt (head ++ [r, g, b]) = countColorPixels vt head + _
    rw [countColorPixels_append vt head [r, g, b] hlen]
    rfl
  · intro tail htail
    show countColorPixels vt (head ++ tail) = countColorPixels vt head
    rw [countColorPixels_append vt head tail hlen]
    match tail with
    | [] => rfl
    | [x] => rfl
    | [x, y] => rfl
    | x :: y :: z :: rest => simp at htail
  · intro tail
    show ((head ++ tail).length : ℚ) / 4 = _
    rw [List.length_append]
    push_cast
    ring

/-- Witness for the amended C8: a 7-value buffer counts its trailing 3-value
chunk as a (here colored) pixel, and a 6-value buffer ignores its 2-value
tail. -/
theorem claim_C8_amended_witness :
    (analyzeImagePixelData ([0, 0, 0, 0] ++ [255, 0, 0]) 20 (2 / 1000)).colorPixels =
      (analyzeImagePixelData [0, 0, 0, 0] 20 (2 / 1000)).colorPixels + 1 ∧
    (analyzeImagePixelData ([0, 0, 0, 0] ++ [9, 9]) 20 (2 / 1000)).colorPixels =
      (analyzeImagePixelData [0, 0, 0, 0] 20 (2 / 1000)).colorPixels := by
  constructor
  · have h := (claim_C8_amended_total [0, 0, 0, 0] 20 (2 / 1000) (by decide)).1 255 0 0
    rw [h, show maxDiff 255 0 0 = 255 from rfl, if_pos (by norm_num : ((255 : Nat) : ℚ) > 20)]
  · exact (claim_C8_amended_total [0, 0, 0, 0] 20 (2 / 1000) (by decide)).2.1 [9, 9]
      (by decide)

/-! ### Range-formatting lemmas -/

/-- The runs of a list starting at `c` start with a run that starts with
`c`. -/
lemma splitRuns_cons (c : Int) (l : List Int) :
    ∃ t rs, splitRuns (c :: l) = (c :: t) :: rs := by
  induction l generalizing c with
  | nil => exact ⟨[], [], rfl⟩
  | cons y rest ih =>
    obtain ⟨t, rs, hy⟩ := ih y
    by_cases hcy : y = c + 1
    · exact ⟨y :: t, rs, by simp only [splitRuns, hy, if_pos hcy]⟩
    · exact ⟨[], (y :: t) :: rs, by simp only [splitRuns, hy, if_neg hcy]⟩

/-- Every maximal run is nonempty. -/
lemma splitRuns_runs_ne_nil : ∀ (l : List Int), ∀ r ∈ splitRuns l, r ≠ [] := by
  intro l
  induction l with
  | nil => simp [splitRuns]
  | cons x xs ih =>
    cases xs with
    | nil =>
      intro r hr
      rw [show splitRuns [x] = [[x]] from rfl, List.mem_singleton] at hr
      subst hr
      simp
    | cons y rest =>
      obtain ⟨t, rs, hy⟩ := splitRuns_cons y rest
      intro r hr
      simp only [splitRuns, hy] at hr
      by_cases hcy : y = x + 1
      · rw [if_pos hcy, List.mem_cons] at hr
        rcases hr with rfl | hr
        · simp
        · exact ih r (by rw [hy]; exact List.mem_cons_of_mem _ hr)
      · rw [if_neg hcy, List.mem_cons, List.mem_cons] at hr
        rcases hr with rfl | rfl | hr
        · simp
        · simp
        · exact ih r (by rw [hy]; exact List.mem_cons_of_mem _ hr)

/-- The walk emits exactly the spec-side run tokens: the token of the open
range `start..` closed at the end of the first maximal run of
`prev :: rest`, followed by the tokens of the remaining runs. -/
lemma rangesWalk_splitRuns :
    ∀ (rest : List Int) (start prev : Int),
      rangesWalk start prev rest =
        rangeToken start (((splitRuns (prev :: rest)).headD []).getLastD 0) ::
          ((splitRuns (prev :: rest)).tail).map runToken := by
  intro rest
  induction rest with
  | nil =>
    intro start prev
    rfl
  | cons c rest ih =>
    intro start prev
    obtain ⟨t, rs, hc⟩ := splitRuns_cons c rest
    by_cases hcp : c = prev + 1
    · have hsp : splitRuns (prev :: c :: rest) = (prev :: c :: t) :: rs := by
        simp only [splitRuns, hc, if_pos hcp]
      simp only [rangesWalk, if_pos hcp]
      rw [ih start c, hc, hsp]
      simp only [List.headD, List.tail, List.getLastD_cons]
    · have hsp : splitRuns (prev :: c :: rest) = [prev] :: (c :: t) :: rs := by
        simp only [splitRuns, hc, if_neg hcp]
      simp only [rangesWalk, if_neg hcp]
      rw [ih c c, hc, hsp]
      simp only [List.headD, List.tail, List.map, runToken, List.getLastD_cons]
      rfl

/-- Membership in the deduplication: kept iff present and not yet seen. -/
lemma mem_setDedup : ∀ (l seen : List Int) (a : Int),
    a ∈ setDedup seen l ↔ a ∈ l ∧ a ∉ seen := by
  intro l
  induction l with
  | nil =>
    intro seen a
    simp [setDedup]
  | cons x xs ih =>
    intro seen a
    by_cases hx : x ∈ seen
    · simp only [setDedup, if_pos hx, ih, List.mem_cons]
      constructor
      · rintro ⟨h1, h2⟩
        exact ⟨Or.inr h1, h2⟩
      · rintro ⟨h1 | h1, h2⟩
        · exact absurd (h1 ▸ hx) h2
        · exact ⟨h1, h2⟩
    · simp only [setDedup, if_neg hx, List.mem_cons, ih]
      constructor
      · rintro (rfl | ⟨h1, h2⟩)
        · exact ⟨Or.inl rfl, hx⟩
        · exact ⟨Or.inr h1, fun hs => h2 (Or.inr hs)⟩
      · rintro ⟨h1 | h1, h2⟩
        · exact Or.inl h1
        · by_cases hax : a = x
          · exact Or.inl hax
          · refine Or.inr ⟨h1, fun hs => ?_⟩
            rcases hs with h3 | h3
            · exact hax h3
            · exact h2 h3

/-- The deduplication has no duplicates. -/
lemma nodup_setDedup : ∀ (l seen : List Int), (setDedup seen l).Nodup := by
  intro l
  induction l with
  | nil =>
    intro seen
    simp [setDedup]
  | cons x xs ih =>
    intro seen
    by_cases hx : x ∈ seen
    · simp only [setDedup, if_pos hx]
      exact ih seen
    · simp only [setDedup, if_neg hx]
      rw [List.nodup_cons]
      refine ⟨fun hmem => ?_, ih _⟩
      rw [mem_setDedup] at hmem
      exact hmem.2 (List.mem_cons_self x seen)

/-- Two inputs with the same elements deduplicate-and-sort identically. -/
lemma sortDedup_eq_of_mem_iff {l₁ l₂ : List Int} (h : ∀ a, a ∈ l₁ ↔ a ∈ l₂) :
    sortDedup l₁ = sortDedup l₂ := by
  unfold sortDedup
  have hperm : (setDedup [] l₁).insertionSort (· ≤ ·) |>.Perm
      ((setDedup [] l₂).insertionSort (· ≤ ·)) := by
    have h3 : (setDedup [] l₁).Perm (setDedup [] l₂) := by
      refine (List.perm_ext_iff_of_nodup (nodup_setDedup _ _)
        (nodup_setDedup _ _)).mpr ?_
      intro a
      rw [mem_setDedup, mem_setDedup]
      rw [h a]
    exact (List.perm_insertionSort _ _).trans
      (h3.trans (List.perm_insertionSort _ _).symm)
  exact List.eq_of_perm_of_sorted hperm
    (List.sorted_insertionSort (· ≤ ·) (setDedup [] l₁))
    (List.sorted_insertionSort (· ≤ ·) (setDedup [] l₂))

/-- A nonempty input has a nonempty deduplicated sort. -/
lemma sortDedup_ne_nil {l : List Int} (h : l ≠ []) : sortDedup l ≠ [] := by
  unfold sortDedup
  intro hcon
  have hlen : (setDedup [] l).length = 0 := by
    rw [← (List.perm_insertionSort (· ≤ ·) (setDedup [] l)).length_eq, hcon]
    rfl
  match l with
  | [] => exact h rfl
  | x :: xs =>
    have : setDedup ([] : List Int) (x :: xs) = x :: setDedup [x] xs := by
      simp [setDedup]
    rw [this] at hlen
    simp at hlen

/-- C4: `formatPageRanges` returns the literal `"None"` on an empty
collection and otherwise equals the specification-side pipeline: deduplicate,
sort ascending, merge maximal runs of consecutive integers into
`start` / `start-end` tokens, join by a comma and a space; consequently it
depends only on the set of its inputs.  The five concrete examples of the
spec evaluate as stated. -/
theorem claim_C4_formatRanges :
    (∀ l : List Int, formatPageRanges l = specFormatRanges l) ∧
    (∀ l₁ l₂ : List Int, (∀ a, a ∈ l₁ ↔ a ∈ l₂) →
      formatPageRanges l₁ = formatPageRanges l₂) ∧
    formatPageRanges [] = "None" ∧
    formatPageRanges [5] = "5" ∧
    formatPageRanges [1, 2, 3, 5, 7, 8] = "1-3, 5, 7-8" ∧
    formatPageRanges [3, 1, 2] = "1-3" ∧
    formatPageRanges [4, 4, 4] = "4" := by
  refine ⟨?_, ?_, by decide, by decide, by decide, by decide, by decide⟩
  · intro l
    unfold formatPageRanges specFormatRanges
    by_cases hl : l.isEmpty
    · rw [if_pos hl, if_pos hl]
    · rw [if_neg hl, if_neg hl]
      have hne : l ≠ [] := fun hcon => hl (by rw [hcon]; rfl)
      have hsne := sortDedup_ne_nil hne
      rcases hsd : sortDedup l with _ | ⟨x, rest⟩
      · exact absurd hsd hsne
      · show String.intercalate ", " (rangesWalk x x rest) =
          String.intercalate ", " ((splitRuns (x :: rest)).map runToken)
        obtain ⟨t, rs, hs⟩ := splitRuns_cons x rest
        rw [rangesWalk_splitRuns rest x x, hs]
        simp only [List.headD, List.tail, List.map, runToken]
  · intro l₁ l₂ h
    by_cases hl : l₁.isEmpty
    · have h1 : l₁ = [] := List.isEmpty_iff.mp hl
      have h2 : l₂ = [] := List.eq_nil_iff_forall_not_mem.mpr
        (fun a ha => (List.eq_nil_iff_forall_not_mem.mp h1 a) ((h a).mpr ha))
      rw [h1, h2]
    · have h1 : l₁ ≠ [] := fun hcon => hl (by rw [hcon]; rfl)
      have h2 : l₂ ≠ [] := by
        intro hcon
        subst hcon
        rcases hl1 : l₁ with _ | ⟨x, xs⟩
        · exact h1 hl1
        · exact absurd ((h x).mp (hl1 ▸ List.mem_cons_self x xs))
            (List.not_mem_nil x)
      unfold formatPageRanges
      rw [if_neg hl, if_neg (fun hcon => h2 (List.isEmpty_iff.mp hcon)),
        sortDedup_eq_of_mem_iff h]

/-- Witness for C4: the walk agrees with the spec pipeline on an unsorted
input, and the output only depends on the input's set of values. -/
theorem claim_C4_witness :
    formatPageRanges [3, 1, 2] = specFormatRanges [3, 1, 2] ∧
    formatPageRanges [2, 1] = formatPageRanges [1, 2] := by
  constructor
  · exact claim_C4_formatRanges.1 [3, 1, 2]
  · refine claim_C4_formatRanges.2.1 [2, 1] [1, 2] ?_
    intro a
    simp only [List.mem_cons, List.not_mem_nil, or_false]
    exact or_comm

end SplitterPDF
